import Mathlib

/-!
Verification of the MLC (multi-leaf collimator) QA analyzer core:
a shallow embedding of `extract_nominal_from_bank_name`, `parse_mlc_data`
and `analyze_data` from `mlc_analyzer_gui.py`, together with theorems
settling the specification claims about them.

Modelling conventions:
* CSV rows are `List String` (one string per cell), as produced by the
  csv reader; measured values are exact rationals (`ℚ`); the float `nan`
  missing-value marker is `none : Option ℚ`.
* Python string operations (`strip`, `lower`, substring containment) are
  re-implemented structurally over `List Char` so that concrete instances
  reduce inside the kernel.
* `float(...)` is modelled on the optionally signed decimal-literal
  fragment (sign, digits, optional fractional part) that the device CSV
  format uses; only success/failure and the parsed value matter to the
  analyzed code paths.
* `np.std` returns the square root of the population variance; the
  embedding stores the square of the standard deviation (`std_dev_sq`),
  which keeps every value in `ℚ`.  Squaring is a strictly monotone
  bijection on the nonnegative reals, so definedness, zero-ness, equal
  ties and descending order of standard deviations coincide with those of
  their squares.
-/

/-- Whitespace predicate matching the characters stripped by Python
`str.strip()` for the ASCII inputs at hand. -/
def pyIsSpace (c : Char) : Bool :=
  c = ' ' || c = '\t' || c = '\n' || c = '\r' || c = '\x0b' || c = '\x0c'

/-- Embedding of Python `str.strip()`. -/
def pyStrip (s : String) : String :=
  ⟨((s.data.dropWhile pyIsSpace).reverse.dropWhile pyIsSpace).reverse⟩

/-- Embedding of Python `str.lower()` (ASCII). -/
def pyLower (s : String) : String :=
  ⟨s.data.map Char.toLower⟩

/-- Does the list start with the given list? (helper for substring search). -/
def listStartsWith : List Char → List Char → Bool
  | [], _ => true
  | _ :: _, [] => false
  | a :: as, b :: bs => a = b && listStartsWith as bs

/-- Embedding of the Python substring test `needle in hay`. -/
def containsSub (hay needle : String) : Bool :=
  hay.data.tails.any (fun t => listStartsWith needle.data t)

/-- Numeric value of a list of decimal digit characters. -/
def digitsVal (ds : List Char) : ℕ :=
  ds.foldl (fun a c => 10 * a + (c.toNat - 48)) 0

/-- Unsigned part of `float(...)`: digits with an optional single decimal
point, at least one digit present. -/
def float_core (cs : List Char) : Option ℚ :=
  match cs.span Char.isDigit with
  | (ip, []) => if ip.isEmpty then none else some (digitsVal ip)
  | (ip, '.' :: fp) =>
      if (ip.isEmpty && fp.isEmpty) || !fp.all Char.isDigit then none
      else some ((digitsVal ip : ℚ) + (digitsVal fp : ℚ) / 10 ^ fp.length)
  | _ => none

/-- Embedding of Python `float(...)` on an already-stripped cell, restricted
to the optionally signed decimal-literal fragment used by the CSV format;
`none` is the `ValueError` outcome. -/
def float_parse (s : String) : Option ℚ :=
  match s.data with
  | '+' :: cs => float_core cs
  | '-' :: cs => (float_core cs).map Neg.neg
  | cs => float_core cs

/-- Value of a signed-integer token (optional leading sign, then digits). -/
def tokenVal (t : List Char) : ℤ :=
  match t with
  | [] => 0
  | c :: d =>
      if c = '+' then (digitsVal d : ℤ)
      else if c = '-' then -(digitsVal d : ℤ)
      else (digitsVal (c :: d) : ℤ)

/-- Decision procedure for the regex `[+-]?\d+` matched against an entire
suffix: an optional sign immediately followed by one or more digits.
Returns the signed integer value on a match. -/
def signedIntToken? (t : List Char) : Option ℤ :=
  match t with
  | [] => none
  | c :: d =>
      if c = '+' then
        if !d.isEmpty && d.all Char.isDigit then some (digitsVal d : ℤ) else none
      else if c = '-' then
        if !d.isEmpty && d.all Char.isDigit then some (-(digitsVal d : ℤ)) else none
      else if (c :: d).all Char.isDigit then some (digitsVal (c :: d) : ℤ) else none

/-- Embedding of `extract_nominal_from_bank_name`.  `re.search` with the
pattern anchored at the string end tries match start positions left to
right, i.e. suffixes longest first; `List.tails` enumerates exactly those.
The `ValueError` outcome is `none`. -/
def extract_nominal_from_bank_name (s : String) : Option ℤ :=
  match (s.data.tails.filterMap signedIntToken?).head? with
  | some v => some v
  | none =>
      if containsSub s "100" && containsSub s "Bank 100" then some 100
      else none

/-- Number of leaves per bank (`NUM_LEAVES`). -/
def NUM_LEAVES : ℕ := 80

/-- The ten recognized bank labels (`target_rows`). -/
def target_rows : List String :=
  ["Left MLC Bank +20", "Left MLC Bank +60", "Left MLC Bank 100",
   "Left MLC Bank -20", "Left MLC Bank -60",
   "Right MLC Bank +20", "Right MLC Bank +60", "Right MLC Bank 100",
   "Right MLC Bank -20", "Right MLC Bank -60"]

/-- A stored leaf-position vector: 80 slots, `none` marking a missing value. -/
abbrev LeafVec := List (Option ℚ)

/-- One run accumulator: bank label to leaf-position vector, in insertion
order (Python dict). -/
abbrev RunData := List (String × LeafVec)

/-- Python dict assignment `m[k] = v`: update in place when the key is
present (keeping its position), append otherwise. -/
def dinsert {α : Type} : List (String × α) → String → α → List (String × α)
  | [], k, v => [(k, v)]
  | (k0, v0) :: rest, k, v =>
      if k0 = k then (k0, v) :: rest else (k0, v0) :: dinsert rest k v

/-- Python dict lookup `m[k]` / `k in m`. -/
def dlookup {α : Type} : List (String × α) → String → Option α
  | [], _ => none
  | (k0, v0) :: rest, k => if k0 = k then some v0 else dlookup rest k

/-- Candidate value cells of a bank row: scan the cells after the label,
stop at the first cell whose lowercasing is `mm`, keep the stripped form of
every non-blank cell. -/
def collect_candidates : List String → List String
  | [] => []
  | item :: rest =>
      if pyLower item = "mm" then []
      else if pyStrip item ≠ "" then pyStrip item :: collect_candidates rest
      else collect_candidates rest

/-- Normalization of lines 77-82 of the source: right-pad a short vector
with missing markers, then truncate to the first `NUM_LEAVES` entries. -/
def clampToNumLeaves (lp : LeafVec) : LeafVec :=
  (lp ++ List.replicate (NUM_LEAVES - lp.length) none).take NUM_LEAVES

/-- Conversion of all candidate cells, failing as a whole on the first
`ValueError` (the list comprehension `[float(val) for val in ...]`). -/
def floats_parse : List String → Option (List ℚ)
  | [] => some []
  | c :: rest =>
      match float_parse c, floats_parse rest with
      | some v, some vs => some (v :: vs)
      | _, _ => none

/-- Leaf-position vector stored for a bank row, from its candidate cells:
no candidates or any conversion failure yield 80 missing markers, otherwise
the parsed values padded/truncated to 80. -/
def to_leaf_positions (cands : List String) : LeafVec :=
  if cands.isEmpty then List.replicate NUM_LEAVES none
  else
    match floats_parse cands with
    | none => List.replicate NUM_LEAVES none
    | some vals => clampToNumLeaves (vals.map some)

/-- Decidable equality for `Except` results, for evaluating the embedding
on concrete inputs. -/
instance exceptDecEq {ε α : Type} [DecidableEq ε] [DecidableEq α] :
    DecidableEq (Except ε α) := fun x y =>
  match x, y with
  | .ok a, .ok b =>
      if h : a = b then isTrue (by rw [h])
      else isFalse (by intro hc; cases hc; exact h rfl)
  | .ok _, .error _ => isFalse (by intro hc; cases hc)
  | .error _, .ok _ => isFalse (by intro hc; cases hc)
  | .error e, .error f =>
      if h : e = f then isTrue (by rw [h])
      else isFalse (by intro hc; cases hc; exact h rfl)

/-- Abort conditions of the parse loop.  `indexError` is the uncaught
`IndexError` raised by `row[1]` on a row whose first (and only) cell is
`Name`; the outer handler re-raises it. -/
inductive ParseErr : Type
  | indexError : ParseErr
deriving DecidableEq

/-- Scanner state of `parse_mlc_data`: the current-run accumulator, whether
a header row has been seen, and the emitted runs. -/
structure PState : Type where
  current : RunData
  headerSeen : Bool
  runs : List RunData
deriving DecidableEq

/-- Initial scanner state. -/
def pinit : PState := ⟨[], false, []⟩

/-- Recognizer for a well-formed header row: first cell `Name`, second cell
`Value`. -/
def isHeaderRow (row : List String) : Bool :=
  match row with
  | c0 :: c1 :: _ => c0 = "Name" && c1 = "Value"
  | _ => false

/-- Effect of a bank-label data row (lines 62-90): when a header has been
seen and the first cell is a recognized label, store its leaf-position
vector in the accumulator; otherwise no change. -/
def bank_update (s : PState) (row : List String) : PState :=
  if s.headerSeen && target_rows.contains (row.headD "") then
    let vec := to_leaf_positions (collect_candidates (row.drop 1))
    { s with current := dinsert s.current (row.headD "") vec }
  else s

/-- One iteration of the parse loop over a row.  Blank rows are skipped; a
row starting with `Name` evaluates `row[1]` (an `IndexError` aborts); a
header row flushes a non-empty accumulator as a completed run; everything
else goes through the bank-label branch. -/
def pstep (s : PState) (row : List String) : Except ParseErr PState :=
  if row.all (· = "") then .ok s
  else if row.headD "" = "Name" then
    match row.drop 1 with
    | [] => .error .indexError
    | c1 :: _ =>
        if c1 = "Value" then
          .ok ⟨[], true, s.runs ++ if s.current.isEmpty then [] else [s.current]⟩
        else .ok (bank_update s row)
  else .ok (bank_update s row)

/-- The scan over all rows plus the end-of-input flush of a non-empty
accumulator; yields the ordered list of emitted runs. -/
def parse_runs (rows : List (List String)) : Except ParseErr (List RunData) := do
  let s ← rows.foldlM pstep pinit
  pure (s.runs ++ if s.current.isEmpty then [] else [s.current])

/-- Cross-run sample for one bank and leaf index: the run's stored value
when the bank is present and its vector long enough, else a missing
marker. -/
def sampleAt (run : RunData) (bank : String) (i : ℕ) : Option ℚ :=
  match dlookup run bank with
  | some vec => vec.getD i none
  | none => none

/-- Aggregation (lines 98-125): keys come from the first run only; per key
and leaf index, one sample per run in file order.  Zero runs, or an empty
first run, yield the empty result with run count 0. -/
def organize (runs : List RunData) :
    List (String × List (List (Option ℚ))) × ℕ :=
  match runs with
  | [] => ([], 0)
  | r1 :: _ =>
      if r1.isEmpty then ([], 0)
      else
        (r1.map (fun bv =>
          (bv.1, (List.range NUM_LEAVES).map (fun i =>
            runs.map (fun run => sampleAt run bv.1 i)))),
         runs.length)

/-- Full `parse_mlc_data` on the already-read rows: scan into runs, then
aggregate.  Only the re-raised exception aborts. -/
def parse_mlc_data (rows : List (List String)) :
    Except ParseErr (List (String × List (List (Option ℚ))) × ℕ) :=
  (parse_runs rows).map organize

/-- One leaderboard entry: display leaf ID, bank label, ranking value. -/
structure LBEntry : Type where
  leafID : String
  bank : String
  value : ℚ
deriving DecidableEq

/-- One analysis row, fields as in the source's result dict; `std_dev_sq`
is the square of the reported standard deviation (see the header note). -/
structure AnalysisRow : Type where
  bank : String
  leafIndex : ℕ
  leafID : String
  nominal : ℤ
  measurements : List ℚ
  meanPos : Option ℚ
  std_dev_sq : Option ℚ
  deviation : Option ℚ
  posRange : Option ℚ
  outOfTolerance : Bool
deriving DecidableEq

/-- Leftmost fold maximum of a list of rationals (value of `np.max` on a
non-empty list). -/
def listMax (l : List ℚ) : ℚ := l.foldl max (l.headD 0)

/-- Leftmost fold minimum of a list of rationals (value of `np.min` on a
non-empty list). -/
def listMin (l : List ℚ) : ℚ := l.foldl min (l.headD 0)

/-- Sum of squared deviations from `m`. -/
def sqDevSum (l : List ℚ) (m : ℚ) : ℚ :=
  (l.map (fun x => (x - m) ^ 2)).sum

/-- Statistics for one (bank, leaf) pair (lines 148-176).  `lruns.getD i []`
is the source's `list_of_leaf_runs[leaf_idx]`, total here; the source
guarantees 80 entries via the parser.  `valid` keeps the non-missing
measurements in order, as the `isnan` mask does. -/
def mkRow (tol : ℚ) (bank : String) (nom : ℤ)
    (lruns : List (List (Option ℚ))) (i : ℕ) : AnalysisRow :=
  let valid : List ℚ := (lruns.getD i []).filterMap id
  let n := valid.length
  let mean? : Option ℚ := if 0 < n then some (valid.sum / (n : ℚ)) else none
  let deviation? : Option ℚ := mean?.map (fun m => m - (nom : ℚ))
  let stdSq? : Option ℚ :=
    if 1 < n then some (sqDevSum valid (valid.sum / (n : ℚ)) / (n : ℚ))
    else if n = 1 then some 0 else none
  let range? : Option ℚ :=
    if 1 < n then some (listMax valid - listMin valid)
    else if n = 1 then some 0 else none
  let oot : Bool :=
    match deviation? with
    | some d => decide (|d| > tol)
    | none => false
  { bank := bank, leafIndex := i,
    leafID := (if containsSub bank "Left" then "L" else "R") ++ toString (i + 1),
    nominal := nom, measurements := valid, meanPos := mean?,
    std_dev_sq := stdSq?, deviation := deviation?, posRange := range?,
    outOfTolerance := oot }

/-- Analysis rows of one bank: all 80 leaves, or none at all when the
nominal extractor fails (the `except ValueError: continue`). -/
def bankRows (tol : ℚ) (bank : String) (lruns : List (List (Option ℚ))) :
    List AnalysisRow :=
  match extract_nominal_from_bank_name bank with
  | none => []
  | some nom => (List.range NUM_LEAVES).map (mkRow tol bank nom lruns)

/-- All analysis rows in iteration order over the aggregated data. -/
def analyze_rows (tol : ℚ) (parsed : List (String × List (List (Option ℚ)))) :
    List AnalysisRow :=
  parsed.flatMap (fun p => bankRows tol p.1 p.2)

/-- Leaderboard entry contributed by a row to the inaccuracy board (key
`abs deviation`), when its deviation is defined. -/
def devEntry? (r : AnalysisRow) : Option LBEntry :=
  r.deviation.map (fun d => ⟨r.leafID, r.bank, |d|⟩)

/-- Leaderboard entry contributed to the imprecision board (key: squared
standard deviation), when defined. -/
def stdEntry? (r : AnalysisRow) : Option LBEntry :=
  r.std_dev_sq.map (fun v => ⟨r.leafID, r.bank, v⟩)

/-- Leaderboard entry contributed to the spread board (key: range), when
defined. -/
def rangeEntry? (r : AnalysisRow) : Option LBEntry :=
  r.posRange.map (fun v => ⟨r.leafID, r.bank, v⟩)

/-- Insert an entry after every element of at least its value and before
the first strictly smaller one. -/
def insertDesc (x : LBEntry) : List LBEntry → List LBEntry
  | [] => [x]
  | y :: ys => if y.value < x.value then x :: y :: ys else y :: insertDesc x ys

/-- Stable descending sort by value: elements are inserted in input order,
each after all earlier elements of equal value.  Python `sorted` with a
key and `reverse=True` is exactly the stable descending sort, whose output
this reproduces. -/
def sortDesc (l : List LBEntry) : List LBEntry :=
  l.foldl (fun acc x => insertDesc x acc) []

/-- Result bundle of `analyze_data`: the analysis rows and the three
leaderboards. -/
structure AnalyzeResult : Type where
  rows : List AnalysisRow
  ranked_inaccurate : List LBEntry
  ranked_imprecise : List LBEntry
  ranked_by_range : List LBEntry
deriving DecidableEq

/-- Embedding of `analyze_data` (lines 130-192).  The source builds the
three pre-sort lists by appending, inside the same iteration that appends
each analysis row, exactly when the respective statistic is defined; that
is the `filterMap` below.  Its redundant second `isnan` filter inside
`sorted(...)` drops nothing (the values are exact rationals) and is
omitted. -/
def analyze_data (parsed : List (String × List (List (Option ℚ))))
    (num_runs : ℕ) (tol : ℚ) : AnalyzeResult :=
  if num_runs = 0 then ⟨[], [], [], []⟩
  else
    let rows := analyze_rows tol parsed
    ⟨rows,
     sortDesc (rows.filterMap devEntry?),
     sortDesc (rows.filterMap stdEntry?),
     sortDesc (rows.filterMap rangeEntry?)⟩

/-! ### Helper lemmas -/

lemma clampToNumLeaves_length (lp : LeafVec) :
    (clampToNumLeaves lp).length = NUM_LEAVES := by
  simp [clampToNumLeaves]
  omega

lemma clampToNumLeaves_short (lp : LeafVec) (h : lp.length ≤ NUM_LEAVES) :
    clampToNumLeaves lp = lp ++ List.replicate (NUM_LEAVES - lp.length) none := by
  unfold clampToNumLeaves
  apply List.take_of_length_le
  simp
  omega

lemma clampToNumLeaves_long (lp : LeafVec) (h : NUM_LEAVES ≤ lp.length) :
    clampToNumLeaves lp = lp.take NUM_LEAVES := by
  unfold clampToNumLeaves
  rw [List.take_append_of_le_length h]

lemma to_leaf_positions_length (cands : List String) :
    (to_leaf_positions cands).length = NUM_LEAVES := by
  unfold to_leaf_positions
  split
  · simp
  · split
    · simp
    · exact clampToNumLeaves_length _

lemma mem_dinsert {α : Type} (m : List (String × α)) (k : String) (v : α)
    (bv : String × α) (h : bv ∈ dinsert m k v) : bv = (k, v) ∨ bv ∈ m := by
  induction m with
  | nil => simpa [dinsert] using h
  | cons hd tl ih =>
      obtain ⟨k0, v0⟩ := hd
      simp only [dinsert] at h
      split at h
      · rename_i heq
        subst heq
        rcases List.mem_cons.mp h with h | h
        · left; exact h
        · right; exact List.mem_cons_of_mem _ h
      · rcases List.mem_cons.mp h with h | h
        · right; exact h ▸ List.mem_cons_self _ _
        · rcases ih h with h1 | h1
          · left; exact h1
          · right; exact List.mem_cons_of_mem _ h1

lemma dlookup_dinsert_ne {α : Type} (m : List (String × α)) (k : String) (v : α)
    (k2 : String) (h : k2 ≠ k) : dlookup (dinsert m k v) k2 = dlookup m k2 := by
  induction m with
  | nil =>
      have hne : ¬ k = k2 := fun hh => h hh.symm
      simp [dinsert, dlookup, hne]
  | cons hd tl ih =>
      obtain ⟨k0, v0⟩ := hd
      simp only [dinsert]
      split
      · rename_i heq
        subst heq
        have hne : ¬ k0 = k2 := fun hh => h hh.symm
        simp [dlookup, hne]
      · simp only [dlookup]
        split
        · rfl
        · exact ih

lemma target_rows_ne : ∀ b ∈ target_rows, b ≠ "Name" ∧ b ≠ "" := by decide

lemma floats_parse_none {l : List String} {c : String}
    (hc : c ∈ l) (hf : float_parse c = none) : floats_parse l = none := by
  induction l with
  | nil => cases hc
  | cons hd tl ih =>
      rcases List.mem_cons.mp hc with h | h
      · subst h
        simp [floats_parse, hf]
      · cases hfa : float_parse hd with
        | none => simp [floats_parse, hfa]
        | some b => simp [floats_parse, hfa, ih h]

/-- Generic preservation of a state predicate along the parse fold. -/
lemma foldlM_pstep_inv (P : PState → Prop)
    (hstep : ∀ s row s2, P s → pstep s row = .ok s2 → P s2) :
    ∀ rows s s2, P s → List.foldlM pstep s rows = .ok s2 → P s2 := by
  intro rows
  induction rows with
  | nil =>
      intro s s2 hP h
      simp only [List.foldlM_nil, pure] at h
      cases h
      exact hP
  | cons r rows ih =>
      intro s s2 hP h
      rw [List.foldlM_cons] at h
      cases hps : pstep s r with
      | error e => rw [hps] at h; simp [Bind.bind, Except.bind] at h
      | ok s1 =>
          rw [hps] at h
          simp only [Bind.bind, Except.bind] at h
          exact ih s1 s2 (hstep s r s1 hP hps) h

/-- Case analysis of a successful parse step. -/
lemma pstep_ok_cases (s : PState) (row : List String) (s2 : PState)
    (h : pstep s row = .ok s2) :
    s2 = s ∨ s2 = bank_update s row ∨
    s2 = ⟨[], true, s.runs ++ if s.current.isEmpty then [] else [s.current]⟩ := by
  unfold pstep at h
  split at h
  · cases h; left; rfl
  · split at h
    · split at h
      · cases h
      · split at h
        · cases h; right; right; rfl
        · cases h; right; left; rfl
    · cases h; right; left; rfl

lemma bank_update_current (s : PState) (row : List String) :
    bank_update s row = s ∨
    ∃ vec, (bank_update s row).current = dinsert s.current (row.headD "") vec ∧
      vec.length = NUM_LEAVES ∧ (bank_update s row).runs = s.runs := by
  unfold bank_update
  split
  · right
    exact ⟨_, rfl, to_leaf_positions_length _, rfl⟩
  · left; rfl

def vecs_ok (s : PState) : Prop :=
  (∀ bv ∈ s.current, bv.2.length = NUM_LEAVES) ∧
  (∀ run ∈ s.runs, ∀ bv ∈ run, bv.2.length = NUM_LEAVES)

lemma pstep_vecs_ok (s : PState) (row : List String) (s2 : PState)
    (hP : vecs_ok s) (h : pstep s row = .ok s2) : vecs_ok s2 := by
  rcases pstep_ok_cases s row s2 h with rfl | rfl | rfl
  · exact hP
  · rcases bank_update_current s row with heq | ⟨vec, hc, hlen, hr⟩
    · rw [heq]; exact hP
    · refine ⟨?_, ?_⟩
      · intro bv hbv
        rw [hc] at hbv
        rcases mem_dinsert _ _ _ _ hbv with rfl | hbv2
        · exact hlen
        · exact hP.1 bv hbv2
      · rw [hr]; exact hP.2
  · refine ⟨by simp, ?_⟩
    intro run hrun
    simp only [List.mem_append] at hrun
    rcases hrun with hrun | hrun
    · exact hP.2 run hrun
    · split at hrun
      · cases hrun
      · rcases List.mem_singleton.mp hrun with rfl
        exact hP.1

lemma parse_runs_vecs_ok (rows : List (List String)) (runs : List RunData)
    (h : parse_runs rows = .ok runs) :
    ∀ run ∈ runs, ∀ bv ∈ run, bv.2.length = NUM_LEAVES := by
  unfold parse_runs at h
  cases hf : List.foldlM pstep pinit rows with
  | error e => rw [hf] at h; simp [Bind.bind, Except.bind] at h
  | ok s =>
      rw [hf] at h
      simp only [Bind.bind, Except.bind, pure, Except.pure] at h
      have hs : vecs_ok s :=
        foldlM_pstep_inv vecs_ok pstep_vecs_ok rows pinit s
          (by exact ⟨by simp [pinit], by simp [pinit]⟩) hf
      cases h
      intro run hrun
      simp only [List.mem_append] at hrun
      rcases hrun with hrun | hrun
      · exact hs.2 run hrun
      · split at hrun
        · cases hrun
        · rcases List.mem_singleton.mp hrun with rfl
          exact hs.1

/-! ### Claim C3 -/

/-- C3: every leaf-position vector stored by the parser has length exactly
80; the normalization right-pads a short vector with missing-value markers,
truncates a long one to its first 80 values, and leaves the retained
values and their order unchanged. -/
theorem C3_stored_vectors_length80 :
    (∀ rows runs, parse_runs rows = .ok runs →
      ∀ run ∈ runs, ∀ bv ∈ run, bv.2.length = NUM_LEAVES)
    ∧ (∀ lp : LeafVec,
        (clampToNumLeaves lp).length = NUM_LEAVES
        ∧ (lp.length ≤ NUM_LEAVES →
            clampToNumLeaves lp = lp ++ List.replicate (NUM_LEAVES - lp.length) none)
        ∧ (NUM_LEAVES ≤ lp.length → clampToNumLeaves lp = lp.take NUM_LEAVES)) := by
  constructor
  · exact parse_runs_vecs_ok
  · intro lp
    exact ⟨clampToNumLeaves_length lp, clampToNumLeaves_short lp, clampToNumLeaves_long lp⟩

/-- C3 witness: a one-run, one-bank file whose bank row has no numeric
cells; the stored vector has 80 entries, and the pad/truncate equations
hold at explicit short and long vectors. -/
theorem C3_stored_vectors_length80_witness :
    (parse_runs [["Name", "Value"], ["Left MLC Bank +20", "mm"]]
        = .ok [[("Left MLC Bank +20", List.replicate NUM_LEAVES (none : Option ℚ))]]
      ∧ ∀ run ∈ [[("Left MLC Bank +20", List.replicate NUM_LEAVES (none : Option ℚ))]],
          ∀ bv ∈ run, bv.2.length = NUM_LEAVES)
    ∧ (([none, none] : LeafVec).length ≤ NUM_LEAVES
        ∧ clampToNumLeaves [none, none]
            = [none, none] ++ List.replicate (NUM_LEAVES - ([none, none] : LeafVec).length) none) := by
  constructor
  · constructor
    · decide
    · exact C3_stored_vectors_length80.1 [["Name", "Value"], ["Left MLC Bank +20", "mm"]] _ (by decide)
  · exact ⟨by decide, (C3_stored_vectors_length80.2 [none, none]).2.1 (by decide)⟩

/-! ### Claim C1 -/

lemma pstep_name_only_row (s : PState) : pstep s ["Name"] = .error .indexError := rfl

lemma foldlM_error_of_name_row :
    ∀ (rows : List (List String)) (s : PState), ["Name"] ∈ rows →
      ∃ e, List.foldlM pstep s rows = .error e := by
  intro rows
  induction rows with
  | nil => intro s h; cases h
  | cons r rows ih =>
      intro s h
      rw [List.foldlM_cons]
      rcases List.mem_cons.mp h with h | h
      · subst h
        rw [pstep_name_only_row]
        exact ⟨.indexError, by simp [Bind.bind, Except.bind]⟩
      · cases hps : pstep s r with
        | error e => exact ⟨e, by simp [Bind.bind, Except.bind]⟩
        | ok s1 =>
            rcases ih s1 h with ⟨e, he⟩
            exact ⟨e, by simpa [Bind.bind, Except.bind] using he⟩

lemma contains_of_mem_target (bank : String) (hb : bank ∈ target_rows) :
    target_rows.contains bank = true := by
  fin_cases hb <;> decide

lemma pstep_short_bank_row (s : PState) (bank : String)
    (hh : s.headerSeen = true) (hb : bank ∈ target_rows) :
    pstep s [bank] =
      .ok { s with current := dinsert s.current bank (List.replicate NUM_LEAVES none) } := by
  obtain ⟨hb1, hb2⟩ := target_rows_ne bank hb
  have hc := contains_of_mem_target bank hb
  simp [pstep, bank_update, hb1, hb2, hh, hc, hb, collect_candidates, to_leaf_positions]

/-- C1 counterexample: a file whose last row has the single cell `Name`
(too few cells for the header check) makes the whole parse abort with the
re-raised index error, instead of being skipped as the claim states. -/
theorem C1_counterexample_name_row_aborts :
    parse_mlc_data [["Name", "Value"], ["Left MLC Bank +20", "mm"], ["Name"]]
      = .error .indexError := rfl

/-- C1 amended: a row whose only cell is `Name` always aborts the whole
parse (the index error is re-raised, so not only I/O failures abort),
while a bank-label row with too few cells is a row-level failure: it is
stored as 80 missing-value markers and parsing continues. -/
theorem C1_short_row_handling :
    (∀ rows, ["Name"] ∈ rows → ∃ e, parse_runs rows = .error e)
    ∧ (∀ (s : PState) (bank : String), s.headerSeen = true → bank ∈ target_rows →
        pstep s [bank] =
          .ok { s with current := dinsert s.current bank (List.replicate NUM_LEAVES none) }) := by
  constructor
  · intro rows hmem
    rcases foldlM_error_of_name_row rows pinit hmem with ⟨e, he⟩
    exact ⟨e, by simp [parse_runs, Bind.bind, Except.bind, he]⟩
  · exact pstep_short_bank_row

/-- C1 witness: the abort on a concrete one-row file, and the row-level
recovery of a concrete short bank row. -/
theorem C1_short_row_handling_witness :
    (["Name"] ∈ [["Name"]] ∧ ∃ e, parse_runs [["Name"]] = .error e)
    ∧ ((⟨[], true, []⟩ : PState).headerSeen = true
        ∧ "Left MLC Bank +20" ∈ target_rows
        ∧ pstep ⟨[], true, []⟩ ["Left MLC Bank +20"]
            = .ok ⟨[("Left MLC Bank +20", List.replicate NUM_LEAVES none)], true, []⟩) :=
  ⟨⟨by decide, C1_short_row_handling.1 [["Name"]] (by decide)⟩,
   ⟨rfl, by decide,
    C1_short_row_handling.2 ⟨[], true, []⟩ "Left MLC Bank +20" rfl (by decide)⟩⟩

/-! ### Claim C4 -/

lemma pstep_bank_row (s : PState) (row : List String) (bank : String)
    (hh : s.headerSeen = true) (hb : bank ∈ target_rows) (hrow : row.headD "" = bank) :
    pstep s row = .ok ⟨dinsert s.current bank
      (to_leaf_positions (collect_candidates (row.drop 1))), s.headerSeen, s.runs⟩ := by
  obtain ⟨hb1, hb2⟩ := target_rows_ne bank hb
  have hc := contains_of_mem_target bank hb
  cases row with
  | nil => exact absurd hrow.symm hb2
  | cons a rest =>
      simp only [List.headD_cons] at hrow
      subst hrow
      simp [pstep, bank_update, hb1, hb2, hh, hc, hb]

/-- C4: one non-numeric token among the candidate value cells (collected
before the case-insensitive `mm` marker) turns the whole stored vector into
80 missing-value markers; processing such a row only rewrites that bank's
entry of the current run (runs already emitted and the header flag are
untouched), and a dict update of one bank leaves every other bank's stored
vector unchanged. -/
theorem C4_nonnumeric_invalidates_whole_vector :
    (∀ (cands : List String) (c : String), c ∈ cands → float_parse c = none →
      to_leaf_positions cands = List.replicate NUM_LEAVES none)
    ∧ (∀ (s : PState) (row : List String) (bank : String),
        s.headerSeen = true → bank ∈ target_rows → row.headD "" = bank →
        pstep s row = .ok ⟨dinsert s.current bank
          (to_leaf_positions (collect_candidates (row.drop 1))), s.headerSeen, s.runs⟩)
    ∧ (∀ (m : RunData) (bank : String) (vec : LeafVec) (bank2 : String),
        bank2 ≠ bank → dlookup (dinsert m bank vec) bank2 = dlookup m bank2) := by
  refine ⟨?_, pstep_bank_row, fun m bank vec bank2 h => dlookup_dinsert_ne m bank vec bank2 h⟩
  intro cands c hc hf
  have hne : cands ≠ [] := List.ne_nil_of_mem hc
  unfold to_leaf_positions
  rw [floats_parse_none hc hf]
  simp [hne]

/-- C4 witness: a concrete candidate list with one non-numeric cell, a
concrete bank row carrying it, and a concrete two-bank accumulator. -/
theorem C4_nonnumeric_invalidates_whole_vector_witness :
    ("abc" ∈ ["20.1", "abc"] ∧ float_parse "abc" = none
      ∧ to_leaf_positions ["20.1", "abc"] = List.replicate NUM_LEAVES none)
    ∧ ((⟨[], true, []⟩ : PState).headerSeen = true
      ∧ "Left MLC Bank +20" ∈ target_rows
      ∧ (["Left MLC Bank +20", "20.1", "abc", "mm"].headD "") = "Left MLC Bank +20"
      ∧ pstep ⟨[], true, []⟩ ["Left MLC Bank +20", "20.1", "abc", "mm"]
          = .ok ⟨dinsert [] "Left MLC Bank +20"
              (to_leaf_positions (collect_candidates ["20.1", "abc", "mm"])), true, []⟩)
    ∧ ("Right MLC Bank -60" ≠ "Left MLC Bank +20"
      ∧ dlookup (dinsert [("Right MLC Bank -60", List.replicate NUM_LEAVES none)]
            "Left MLC Bank +20" ([] : LeafVec)) "Right MLC Bank -60"
          = dlookup [("Right MLC Bank -60", List.replicate NUM_LEAVES none)]
              "Right MLC Bank -60") :=
  ⟨⟨by decide, rfl,
    C4_nonnumeric_invalidates_whole_vector.1 ["20.1", "abc"] "abc" (by decide) rfl⟩,
   ⟨rfl, by decide, rfl,
    C4_nonnumeric_invalidates_whole_vector.2.1 ⟨[], true, []⟩
      ["Left MLC Bank +20", "20.1", "abc", "mm"] "Left MLC Bank +20" rfl (by decide) rfl⟩,
   ⟨by decide,
    C4_nonnumeric_invalidates_whole_vector.2.2
      [("Right MLC Bank -60", List.replicate NUM_LEAVES none)]
      "Left MLC Bank +20" ([] : LeafVec) "Right MLC Bank -60" (by decide)⟩⟩

/-! ### Claim C5 -/

lemma bank_update_runs (s : PState) (row : List String) :
    (bank_update s row).runs = s.runs := by
  unfold bank_update
  split <;> rfl

lemma pstep_header_row (s : PState) (row : List String) (h : isHeaderRow row = true) :
    pstep s row =
      .ok ⟨[], true, s.runs ++ if s.current.isEmpty then [] else [s.current]⟩ := by
  cases row with
  | nil => simp [isHeaderRow] at h
  | cons c0 rest =>
      cases rest with
      | nil => simp [isHeaderRow] at h
      | cons c1 rest2 =>
          simp only [isHeaderRow, Bool.and_eq_true, decide_eq_true_eq] at h
          obtain ⟨h0, h1⟩ := h
          subst h0
          subst h1
          simp [pstep]

lemma pstep_before_header (s : PState) (row : List String)
    (hs : s.headerSeen = false) (hnh : isHeaderRow row = false)
    (hwf : row.headD "" = "Name" → row.drop 1 ≠ []) :
    pstep s row = .ok s := by
  have hbu : bank_update s row = s := by
    unfold bank_update
    simp [hs]
  unfold pstep
  split
  · rfl
  · split
    · rename_i hname
      cases hd : row.drop 1 with
      | nil => exact absurd hd (hwf hname)
      | cons c1 rest =>
          have hc1 : ¬ c1 = "Value" := by
            intro hv
            subst hv
            cases row with
            | nil => simp at hname
            | cons a rows2 =>
                simp only [List.headD_cons] at hname
                subst hname
                simp only [List.drop_succ_cons, List.drop_zero] at hd
                subst hd
                simp [isHeaderRow] at hnh
          simp [hc1, hbu]
    · simp [hbu]

lemma foldlM_before_header :
    ∀ (rows : List (List String)) (s : PState), s.headerSeen = false →
      (∀ r ∈ rows, isHeaderRow r = false ∧ (r.headD "" = "Name" → r.drop 1 ≠ [])) →
      List.foldlM pstep s rows = .ok s := by
  intro rows
  induction rows with
  | nil => intro s _ _; rfl
  | cons r rows ih =>
      intro s hs hr
      rw [List.foldlM_cons]
      obtain ⟨h1, h2⟩ := hr r (List.mem_cons_self _ _)
      rw [pstep_before_header s r hs h1 h2]
      simpa [Bind.bind, Except.bind] using
        ih s hs (fun x hx => hr x (List.mem_cons_of_mem _ hx))

def runs_nonempty (s : PState) : Prop := ∀ run ∈ s.runs, run ≠ []

lemma pstep_runs_nonempty (s : PState) (row : List String) (s2 : PState)
    (hP : runs_nonempty s) (h : pstep s row = .ok s2) : runs_nonempty s2 := by
  rcases pstep_ok_cases s row s2 h with rfl | rfl | rfl
  · exact hP
  · intro run hrun
    rw [bank_update_runs] at hrun
    exact hP run hrun
  · intro run hrun
    simp only [List.mem_append] at hrun
    rcases hrun with hrun | hrun
    · exact hP run hrun
    · split at hrun
      · cases hrun
      · rcases List.mem_singleton.mp hrun with rfl
        rename_i hne
        simpa using hne

lemma parse_runs_nonempty (rows : List (List String)) (runs : List RunData)
    (h : parse_runs rows = .ok runs) : ∀ run ∈ runs, run ≠ [] := by
  unfold parse_runs at h
  cases hf : List.foldlM pstep pinit rows with
  | error e => rw [hf] at h; simp [Bind.bind, Except.bind] at h
  | ok s =>
      rw [hf] at h
      simp only [Bind.bind, Except.bind, pure, Except.pure] at h
      have hs : runs_nonempty s :=
        foldlM_pstep_inv runs_nonempty pstep_runs_nonempty rows pinit s
          (by intro run hrun; simp [pinit] at hrun) hf
      cases h
      intro run hrun
      simp only [List.mem_append] at hrun
      rcases hrun with hrun | hrun
      · exact hs run hrun
      · split at hrun
        · cases hrun
        · rcases List.mem_singleton.mp hrun with rfl
          rename_i hne
          simpa using hne

/-- C5: a header row flushes the accumulator exactly when it is non-empty
(so the first header, reached with an empty accumulator, emits nothing);
end-of-input flushes a final non-empty accumulator; every emitted run is
non-empty and the returned run count is the number of emitted runs. -/
theorem C5_header_flush_and_run_count :
    (∀ (s : PState) (row : List String), isHeaderRow row = true →
      pstep s row =
        .ok ⟨[], true, s.runs ++ if s.current.isEmpty then [] else [s.current]⟩)
    ∧ (∀ (rows1 : List (List String)) (hdr : List String),
        (∀ r ∈ rows1, isHeaderRow r = false ∧ (r.headD "" = "Name" → r.drop 1 ≠ [])) →
        isHeaderRow hdr = true →
        List.foldlM pstep pinit (rows1 ++ [hdr]) = .ok ⟨[], true, []⟩)
    ∧ (∀ (rows : List (List String)) (s : PState),
        List.foldlM pstep pinit rows = .ok s →
        parse_runs rows = .ok (s.runs ++ if s.current.isEmpty then [] else [s.current]))
    ∧ (∀ (rows : List (List String)) (runs : List RunData),
        parse_runs rows = .ok runs →
        (∀ run ∈ runs, run ≠ []) ∧ parse_mlc_data rows = .ok (organize runs)
          ∧ (organize runs).2 = runs.length) := by
  refine ⟨pstep_header_row, ?_, ?_, ?_⟩
  · intro rows1 hdr h1 h2
    rw [List.foldlM_append, foldlM_before_header rows1 pinit rfl h1]
    simp only [Bind.bind, Except.bind, List.foldlM_cons, List.foldlM_nil]
    rw [pstep_header_row pinit hdr h2]
    simp [pinit, pure, Except.pure]
  · intro rows s hf
    unfold parse_runs
    rw [hf]
    simp [Bind.bind, Except.bind, pure, Except.pure]
  · intro rows runs h
    refine ⟨parse_runs_nonempty rows runs h, ?_, ?_⟩
    · unfold parse_mlc_data
      rw [h]
      rfl
    · cases runs with
      | nil => rfl
      | cons r1 rest =>
          have hne : r1 ≠ [] := parse_runs_nonempty rows _ h r1 (List.mem_cons_self _ _)
          have hie : r1.isEmpty = false := by
            cases r1 with
            | nil => exact absurd rfl hne
            | cons a b => rfl
          simp [organize, hie]

/-- C5 witness: the flush rule at a one-bank accumulator, a concrete
pre-header prefix, the end-of-input flush, and the run count of a concrete
one-run file. -/
theorem C5_header_flush_and_run_count_witness :
    (isHeaderRow ["Name", "Value"] = true
      ∧ pstep ⟨[("Left MLC Bank +20", List.replicate NUM_LEAVES none)], true, []⟩
          ["Name", "Value"]
        = .ok ⟨[], true,
            [] ++ if ([("Left MLC Bank +20", List.replicate NUM_LEAVES (none : Option ℚ))] : RunData).isEmpty
                  then [] else [[("Left MLC Bank +20", List.replicate NUM_LEAVES none)]]⟩)
    ∧ ((∀ r ∈ [["junk"]], isHeaderRow r = false ∧ (r.headD "" = "Name" → r.drop 1 ≠ []))
      ∧ isHeaderRow ["Name", "Value", "Unit"] = true
      ∧ List.foldlM pstep pinit ([["junk"]] ++ [["Name", "Value", "Unit"]]) = .ok ⟨[], true, []⟩)
    ∧ (List.foldlM pstep pinit [["Name", "Value"]] = .ok ⟨[], true, []⟩
      ∧ parse_runs [["Name", "Value"]]
          = .ok (([] : List RunData)
              ++ if ([] : RunData).isEmpty then [] else [([] : RunData)]))
    ∧ (parse_runs [["Name", "Value"], ["Left MLC Bank +20", "mm"]]
          = .ok [[("Left MLC Bank +20", List.replicate NUM_LEAVES (none : Option ℚ))]]
      ∧ (organize [[("Left MLC Bank +20", List.replicate NUM_LEAVES (none : Option ℚ))]]).2
          = [[("Left MLC Bank +20", List.replicate NUM_LEAVES (none : Option ℚ))]].length) := by
  refine ⟨⟨rfl, C5_header_flush_and_run_count.1 _ _ rfl⟩,
    ⟨by decide, rfl, C5_header_flush_and_run_count.2.1 [["junk"]] _ (by decide) rfl⟩,
    ⟨rfl, C5_header_flush_and_run_count.2.2.1 [["Name", "Value"]] ⟨[], true, []⟩ rfl⟩,
    ⟨by decide, ?_⟩⟩
  exact (C5_header_flush_and_run_count.2.2.2 [["Name", "Value"], ["Left MLC Bank +20", "mm"]]
    [[("Left MLC Bank +20", List.replicate NUM_LEAVES (none : Option ℚ))]] (by decide)).2.2

/-! ### Claim C6 -/

/-- C6: aggregation keys on the first run's bank labels only, yields the
run count, and for each kept bank and leaf index a sample list with one
slot per run: the run's stored value when the bank is present and its
vector long enough, else a missing-value marker; zero runs or an empty
first run give the empty result. -/
theorem C6_aggregation_from_first_run :
    (organize [] = ([], 0))
    ∧ (∀ rest : List RunData, organize ([] :: rest) = ([], 0))
    ∧ (∀ (runs : List RunData) (r1 : RunData) (rest : List RunData),
        runs = r1 :: rest → r1 ≠ [] →
        ((organize runs).1.map Prod.fst = r1.map Prod.fst)
        ∧ (organize runs).2 = runs.length
        ∧ ∀ bls ∈ (organize runs).1,
            bls.2.length = NUM_LEAVES
            ∧ ∀ i, i < NUM_LEAVES →
                (bls.2.getD i []).length = runs.length
                ∧ ∀ j, (hj : j < runs.length) →
                    (dlookup (runs.getD j []) bls.1 = none →
                      (bls.2.getD i []).getD j none = none)
                    ∧ (∀ vec, dlookup (runs.getD j []) bls.1 = some vec →
                        (∀ h : i < vec.length,
                          (bls.2.getD i []).getD j none = vec.get ⟨i, h⟩)
                        ∧ (vec.length ≤ i → (bls.2.getD i []).getD j none = none))) := by
  refine ⟨rfl, fun rest => rfl, ?_⟩
  intro runs r1 rest hruns hne
  subst hruns
  have hie : r1.isEmpty = false := by
    cases r1 with
    | nil => exact absurd rfl hne
    | cons a b => rfl
  refine ⟨?_, ?_, ?_⟩
  · simp [organize, hie]
  · simp [organize, hie]
  intro bls hb
  simp only [organize, hie, Bool.false_eq_true, if_false] at hb
  rcases List.mem_map.mp hb with ⟨bv, hbv, rfl⟩
  dsimp only
  refine ⟨by simp, ?_⟩
  intro i hi
  have hget : ((List.range NUM_LEAVES).map
        (fun i => (r1 :: rest).map (fun run => sampleAt run bv.1 i))).getD i []
      = (r1 :: rest).map (fun run => sampleAt run bv.1 i) := by
    rw [List.getD_eq_getElem?_getD, List.getElem?_map, List.getElem?_range hi]
    rfl
  rw [hget]
  refine ⟨by simp, ?_⟩
  intro j hj
  have hj2 : j < (r1 :: rest).length := hj
  have hget2 : ((r1 :: rest).map (fun run => sampleAt run bv.1 i)).getD j none
      = sampleAt ((r1 :: rest).getD j []) bv.1 i := by
    rw [List.getD_eq_getElem?_getD, List.getElem?_map, List.getElem?_eq_getElem hj2,
      List.getD_eq_getElem?_getD, List.getElem?_eq_getElem hj2]
    rfl
  rw [hget2]
  constructor
  · intro hnone
    unfold sampleAt
    rw [hnone]
  · intro vec hvec
    constructor
    · intro h
      unfold sampleAt
      rw [hvec]
      simp only
      rw [List.getD_eq_getElem?_getD, List.getElem?_eq_getElem h]
      rfl
    · intro h
      unfold sampleAt
      rw [hvec]
      simp only
      rw [List.getD_eq_getElem?_getD, List.getElem?_eq_none h]
      rfl

/-- C6 witness: a concrete two-run input whose second run has a bank
absent from run 1. -/
theorem C6_aggregation_from_first_run_witness :
    (([("Left MLC Bank +20", List.replicate NUM_LEAVES (none : Option ℚ))],
        [[("Left MLC Bank +20", List.replicate NUM_LEAVES (none : Option ℚ))],
         [("Right MLC Bank -60", [])]])
      = (([("Left MLC Bank +20", List.replicate NUM_LEAVES (none : Option ℚ))] : RunData),
        ([[("Left MLC Bank +20", List.replicate NUM_LEAVES (none : Option ℚ))],
          [("Right MLC Bank -60", [])]] : List RunData))
      ∧ ([("Left MLC Bank +20", List.replicate NUM_LEAVES (none : Option ℚ))] : RunData) ≠ [])
    ∧ ((organize [[("Left MLC Bank +20", List.replicate NUM_LEAVES (none : Option ℚ))],
          [("Right MLC Bank -60", [])]]).1.map Prod.fst
        = ([("Left MLC Bank +20", List.replicate NUM_LEAVES (none : Option ℚ))] : RunData).map Prod.fst) := by
  refine ⟨⟨rfl, by decide⟩, ?_⟩
  exact (C6_aggregation_from_first_run.2.2
    [[("Left MLC Bank +20", List.replicate NUM_LEAVES (none : Option ℚ))],
     [("Right MLC Bank -60", [])]]
    [("Left MLC Bank +20", List.replicate NUM_LEAVES (none : Option ℚ))]
    [[("Right MLC Bank -60", [])]] rfl (by decide)).1

/-! ### Analysis-side helper lemmas -/

lemma analyze_data_rows (parsed : List (String × List (List (Option ℚ))))
    (n : ℕ) (tol : ℚ) (hn : n ≠ 0) :
    (analyze_data parsed n tol).rows = analyze_rows tol parsed := by
  simp [analyze_data, hn]

lemma mem_analyze_rows (tol : ℚ) (parsed : List (String × List (List (Option ℚ))))
    (r : AnalysisRow) :
    r ∈ analyze_rows tol parsed ↔
    ∃ bank lruns nom i, (bank, lruns) ∈ parsed ∧
      extract_nominal_from_bank_name bank = some nom ∧ i < NUM_LEAVES ∧
      r = mkRow tol bank nom lruns i := by
  unfold analyze_rows
  rw [List.mem_flatMap]
  constructor
  · rintro ⟨p, hp, hr⟩
    unfold bankRows at hr
    cases hx : extract_nominal_from_bank_name p.1 with
    | none => rw [hx] at hr; cases hr
    | some nom =>
        rw [hx] at hr
        rcases List.mem_map.mp hr with ⟨i, hi, rfl⟩
        exact ⟨p.1, p.2, nom, i, by simpa using hp, hx, List.mem_range.mp hi, rfl⟩
  · rintro ⟨bank, lruns, nom, i, hp, hx, hi, rfl⟩
    refine ⟨(bank, lruns), hp, ?_⟩
    unfold bankRows
    simp only
    rw [hx]
    exact List.mem_map.mpr ⟨i, List.mem_range.mpr hi, rfl⟩

lemma mkRow_measurements (tol : ℚ) (bank : String) (nom : ℤ)
    (lruns : List (List (Option ℚ))) (i : ℕ) :
    (mkRow tol bank nom lruns i).measurements = (lruns.getD i []).filterMap id := rfl

lemma mkRow_defined_iff (tol : ℚ) (bank : String) (nom : ℤ)
    (lruns : List (List (Option ℚ))) (i : ℕ) :
    ((mkRow tol bank nom lruns i).meanPos.isSome
        ↔ (mkRow tol bank nom lruns i).measurements ≠ [])
    ∧ ((mkRow tol bank nom lruns i).deviation.isSome
        ↔ (mkRow tol bank nom lruns i).measurements ≠ [])
    ∧ ((mkRow tol bank nom lruns i).std_dev_sq.isSome
        ↔ (mkRow tol bank nom lruns i).measurements ≠ [])
    ∧ ((mkRow tol bank nom lruns i).posRange.isSome
        ↔ (mkRow tol bank nom lruns i).measurements ≠ []) := by
  unfold mkRow
  simp only
  rcases hv : (lruns.getD i []).filterMap id with _ | ⟨v, rest⟩
  · simp
  · rcases rest with _ | ⟨w, rest2⟩
    · simp
    · simp [Nat.succ_lt_succ]

lemma mkRow_oot_iff (tol : ℚ) (bank : String) (nom : ℤ)
    (lruns : List (List (Option ℚ))) (i : ℕ) :
    ((mkRow tol bank nom lruns i).outOfTolerance = true ↔
      ∃ d, (mkRow tol bank nom lruns i).deviation = some d ∧ |d| > tol)
    ∧ ((mkRow tol bank nom lruns i).deviation = none →
        (mkRow tol bank nom lruns i).outOfTolerance = false) := by
  unfold mkRow
  simp only
  rcases hv : (lruns.getD i []).filterMap id with _ | ⟨v, rest⟩
  · simp
  · simp

/-! ### Claim C8 -/

/-- C8: a row's out-of-tolerance flag is true exactly when its deviation is
defined with absolute value strictly above the tolerance; an undefined
deviation gives a false flag. -/
theorem C8_out_of_tolerance_flag :
    ∀ (parsed : List (String × List (List (Option ℚ)))) (n : ℕ) (tol : ℚ)
      (row : AnalysisRow), row ∈ (analyze_data parsed n tol).rows →
      (row.outOfTolerance = true ↔ ∃ d, row.deviation = some d ∧ |d| > tol)
      ∧ (row.deviation = none → row.outOfTolerance = false) := by
  intro parsed n tol row hrow
  rcases Nat.eq_zero_or_pos n with rfl | hn
  · simp [analyze_data] at hrow
  · rw [analyze_data_rows parsed n tol (Nat.pos_iff_ne_zero.mp hn)] at hrow
    rcases (mem_analyze_rows tol parsed row).mp hrow with ⟨bank, lruns, nom, i, _, _, _, rfl⟩
    exact mkRow_oot_iff tol bank nom lruns i

/-- C8 witness: the flag equivalence at the first row of a concrete
one-bank analysis. -/
theorem C8_out_of_tolerance_flag_witness :
    (mkRow 1 "Left MLC Bank +20" 20 [] 0
        ∈ (analyze_data [("Left MLC Bank +20", [])] 1 1).rows)
    ∧ ((mkRow 1 "Left MLC Bank +20" 20 [] 0).outOfTolerance = true ↔
        ∃ d, (mkRow 1 "Left MLC Bank +20" 20 [] 0).deviation = some d ∧ |d| > 1)
    ∧ ((mkRow 1 "Left MLC Bank +20" 20 [] 0).deviation = none →
        (mkRow 1 "Left MLC Bank +20" 20 [] 0).outOfTolerance = false) := by
  have hmem : mkRow 1 "Left MLC Bank +20" 20 [] 0
      ∈ (analyze_data [("Left MLC Bank +20", [])] 1 1).rows := by
    rw [analyze_data_rows _ _ _ (by decide)]
    exact (mem_analyze_rows 1 _ _).mpr
      ⟨"Left MLC Bank +20", [], 20, 0, List.mem_singleton.mpr rfl, by decide, by decide, rfl⟩
  have h := C8_out_of_tolerance_flag [("Left MLC Bank +20", [])] 1 1
    (mkRow 1 "Left MLC Bank +20" 20 [] 0) hmem
  exact ⟨hmem, h.1, h.2⟩

/-! ### Sorting lemmas -/

lemma insertDesc_perm (x : LBEntry) (l : List LBEntry) :
    (insertDesc x l).Perm (x :: l) := by
  induction l with
  | nil => exact List.Perm.refl _
  | cons y ys ih =>
      unfold insertDesc
      split
      · exact List.Perm.refl _
      · exact (List.Perm.cons y ih).trans (List.Perm.swap x y ys)

lemma mem_insertDesc (x z : LBEntry) (l : List LBEntry) (h : z ∈ insertDesc x l) :
    z = x ∨ z ∈ l := by
  have := (insertDesc_perm x l).mem_iff.mp h
  simpa using this

lemma sortDesc_go_perm :
    ∀ (l acc : List LBEntry),
      (l.foldl (fun a x => insertDesc x a) acc).Perm (acc ++ l) := by
  intro l
  induction l with
  | nil => intro acc; simp
  | cons x xs ih =>
      intro acc
      rw [List.foldl_cons]
      refine (ih (insertDesc x acc)).trans ?_
      refine (List.Perm.append_right xs (insertDesc_perm x acc)).trans ?_
      exact List.perm_middle.symm

lemma sortDesc_perm (l : List LBEntry) : (sortDesc l).Perm l := by
  simpa using sortDesc_go_perm l []

lemma insertDesc_sorted (x : LBEntry) (l : List LBEntry)
    (h : List.Pairwise (fun a b => b.value ≤ a.value) l) :
    List.Pairwise (fun a b => b.value ≤ a.value) (insertDesc x l) := by
  induction l with
  | nil => simp [insertDesc]
  | cons y ys ih =>
      unfold insertDesc
      split
      · rename_i hlt
        refine List.Pairwise.cons ?_ h
        intro z hz
        rcases List.mem_cons.mp hz with rfl | hz
        · exact le_of_lt hlt
        · exact le_trans (List.rel_of_pairwise_cons h hz) (le_of_lt hlt)
      · rename_i hge
        refine List.Pairwise.cons ?_ (ih (List.pairwise_cons.mp h).2)
        · intro z hz
          rcases mem_insertDesc x z ys hz with rfl | hz
          · exact le_of_not_lt hge
          · exact List.rel_of_pairwise_cons h hz

lemma sortDesc_go_sorted :
    ∀ (l acc : List LBEntry),
      List.Pairwise (fun a b => b.value ≤ a.value) acc →
      List.Pairwise (fun a b => b.value ≤ a.value)
        (l.foldl (fun a x => insertDesc x a) acc) := by
  intro l
  induction l with
  | nil => intro acc h; simpa
  | cons x xs ih =>
      intro acc h
      rw [List.foldl_cons]
      exact ih (insertDesc x acc) (insertDesc_sorted x acc h)

lemma sortDesc_sorted (l : List LBEntry) :
    List.Pairwise (fun a b => b.value ≤ a.value) (sortDesc l) :=
  sortDesc_go_sorted l [] (List.Pairwise.nil)

lemma filter_eq_nil_of_head_lt (q : ℚ) (y : LBEntry) (ys : List LBEntry)
    (h : List.Pairwise (fun a b => b.value ≤ a.value) (y :: ys))
    (hy : y.value < q) :
    (y :: ys).filter (fun e => e.value = q) = [] := by
  rw [List.filter_eq_nil_iff]
  intro z hz
  rcases List.mem_cons.mp hz with rfl | hz
  · simpa using ne_of_lt hy
  · have : z.value ≤ y.value := List.rel_of_pairwise_cons h hz
    simpa using ne_of_lt (lt_of_le_of_lt this hy)

lemma filter_insertDesc (q : ℚ) (x : LBEntry) (acc : List LBEntry)
    (hacc : List.Pairwise (fun a b => b.value ≤ a.value) acc) :
    (insertDesc x acc).filter (fun e => e.value = q)
      = if x.value = q then acc.filter (fun e => e.value = q) ++ [x]
        else acc.filter (fun e => e.value = q) := by
  induction acc with
  | nil =>
      simp only [insertDesc, List.filter_cons, List.filter_nil]
      split <;> simp_all
  | cons y ys ih =>
      have hys : List.Pairwise (fun a b => b.value ≤ a.value) ys :=
        (List.pairwise_cons.mp hacc).2
      unfold insertDesc
      split
      · rename_i hlt
        by_cases hxq : x.value = q
        · rw [if_pos hxq, filter_eq_nil_of_head_lt q y ys hacc (hxq ▸ hlt),
            List.filter_cons, if_pos (by simpa using hxq),
            filter_eq_nil_of_head_lt q y ys hacc (hxq ▸ hlt)]
          rfl
        · rw [if_neg hxq, List.filter_cons, if_neg (by simpa using hxq)]
      · rename_i hge
        by_cases hxq : x.value = q <;> by_cases hyq : y.value = q <;>
          simp [List.filter_cons, hxq, hyq, ih hys]

lemma filter_sortDesc_go (q : ℚ) :
    ∀ (l acc : List LBEntry),
      List.Pairwise (fun a b => b.value ≤ a.value) acc →
      (l.foldl (fun a x => insertDesc x a) acc).filter (fun e => e.value = q)
        = acc.filter (fun e => e.value = q) ++ l.filter (fun e => e.value = q) := by
  intro l
  induction l with
  | nil => intro acc _; simp
  | cons x xs ih =>
      intro acc hacc
      rw [List.foldl_cons, ih (insertDesc x acc) (insertDesc_sorted x acc hacc),
        filter_insertDesc q x acc hacc, List.filter_cons]
      by_cases hxq : x.value = q
      · rw [if_pos hxq, if_pos (by simpa using hxq)]
        simp
      · rw [if_neg hxq, if_neg (by simpa using hxq)]

lemma sortDesc_stable (q : ℚ) (l : List LBEntry) :
    (sortDesc l).filter (fun e => e.value = q) = l.filter (fun e => e.value = q) := by
  simpa using filter_sortDesc_go q l [] List.Pairwise.nil

/-! ### Claim C7 -/

/-- C7: each leaderboard is a permutation of the entries contributed by
rows with a defined key (undefined keys are excluded entirely), is sorted
descending by its key, and within each key value keeps the original
analysis-row order (stability: filtering either list to one key value
gives identical lists). -/
theorem C7_leaderboards_sorted_stable :
    ∀ (parsed : List (String × List (List (Option ℚ)))) (n : ℕ) (tol : ℚ), n ≠ 0 →
      ((analyze_data parsed n tol).ranked_inaccurate.Perm
          ((analyze_rows tol parsed).filterMap devEntry?)
        ∧ List.Pairwise (fun a b => b.value ≤ a.value)
            (analyze_data parsed n tol).ranked_inaccurate
        ∧ ∀ q : ℚ,
            (analyze_data parsed n tol).ranked_inaccurate.filter (fun e => e.value = q)
              = ((analyze_rows tol parsed).filterMap devEntry?).filter
                  (fun e => e.value = q))
      ∧ ((analyze_data parsed n tol).ranked_imprecise.Perm
          ((analyze_rows tol parsed).filterMap stdEntry?)
        ∧ List.Pairwise (fun a b => b.value ≤ a.value)
            (analyze_data parsed n tol).ranked_imprecise
        ∧ ∀ q : ℚ,
            (analyze_data parsed n tol).ranked_imprecise.filter (fun e => e.value = q)
              = ((analyze_rows tol parsed).filterMap stdEntry?).filter
                  (fun e => e.value = q))
      ∧ ((analyze_data parsed n tol).ranked_by_range.Perm
          ((analyze_rows tol parsed).filterMap rangeEntry?)
        ∧ List.Pairwise (fun a b => b.value ≤ a.value)
            (analyze_data parsed n tol).ranked_by_range
        ∧ ∀ q : ℚ,
            (analyze_data parsed n tol).ranked_by_range.filter (fun e => e.value = q)
              = ((analyze_rows tol parsed).filterMap rangeEntry?).filter
                  (fun e => e.value = q)) := by
  intro parsed n tol hn
  have h1 : (analyze_data parsed n tol).ranked_inaccurate
      = sortDesc ((analyze_rows tol parsed).filterMap devEntry?) := by
    simp [analyze_data, hn]
  have h2 : (analyze_data parsed n tol).ranked_imprecise
      = sortDesc ((analyze_rows tol parsed).filterMap stdEntry?) := by
    simp [analyze_data, hn]
  have h3 : (analyze_data parsed n tol).ranked_by_range
      = sortDesc ((analyze_rows tol parsed).filterMap rangeEntry?) := by
    simp [analyze_data, hn]
  refine ⟨⟨?_, ?_, ?_⟩, ⟨?_, ?_, ?_⟩, ⟨?_, ?_, ?_⟩⟩
  · rw [h1]; exact sortDesc_perm _
  · rw [h1]; exact sortDesc_sorted _
  · intro q; rw [h1]; exact sortDesc_stable q _
  · rw [h2]; exact sortDesc_perm _
  · rw [h2]; exact sortDesc_sorted _
  · intro q; rw [h2]; exact sortDesc_stable q _
  · rw [h3]; exact sortDesc_perm _
  · rw [h3]; exact sortDesc_sorted _
  · intro q; rw [h3]; exact sortDesc_stable q _

/-- C7 witness: the three leaderboard properties at a concrete one-bank,
one-run analysis. -/
theorem C7_leaderboards_sorted_stable_witness :
    ((1 : ℕ) ≠ 0)
    ∧ (((analyze_data [("Left MLC Bank +20", [])] 1 1).ranked_inaccurate.Perm
          ((analyze_rows 1 [("Left MLC Bank +20", [])]).filterMap devEntry?)
        ∧ List.Pairwise (fun a b => b.value ≤ a.value)
            (analyze_data [("Left MLC Bank +20", [])] 1 1).ranked_inaccurate
        ∧ ∀ q : ℚ,
            (analyze_data [("Left MLC Bank +20", [])] 1 1).ranked_inaccurate.filter
                (fun e => e.value = q)
              = ((analyze_rows 1 [("Left MLC Bank +20", [])]).filterMap devEntry?).filter
                  (fun e => e.value = q))
      ∧ ((analyze_data [("Left MLC Bank +20", [])] 1 1).ranked_imprecise.Perm
          ((analyze_rows 1 [("Left MLC Bank +20", [])]).filterMap stdEntry?)
        ∧ List.Pairwise (fun a b => b.value ≤ a.value)
            (analyze_data [("Left MLC Bank +20", [])] 1 1).ranked_imprecise
        ∧ ∀ q : ℚ,
            (analyze_data [("Left MLC Bank +20", [])] 1 1).ranked_imprecise.filter
                (fun e => e.value = q)
              = ((analyze_rows 1 [("Left MLC Bank +20", [])]).filterMap stdEntry?).filter
                  (fun e => e.value = q))
      ∧ ((analyze_data [("Left MLC Bank +20", [])] 1 1).ranked_by_range.Perm
          ((analyze_rows 1 [("Left MLC Bank +20", [])]).filterMap rangeEntry?)
        ∧ List.Pairwise (fun a b => b.value ≤ a.value)
            (analyze_data [("Left MLC Bank +20", [])] 1 1).ranked_by_range
        ∧ ∀ q : ℚ,
            (analyze_data [("Left MLC Bank +20", [])] 1 1).ranked_by_range.filter
                (fun e => e.value = q)
              = ((analyze_rows 1 [("Left MLC Bank +20", [])]).filterMap rangeEntry?).filter
                  (fun e => e.value = q))) :=
  ⟨by decide, C7_leaderboards_sorted_stable [("Left MLC Bank +20", [])] 1 1 (by decide)⟩

/-! ### Claim C10 -/

lemma filterMap_length_congr {α β γ : Type} (l : List α)
    (f : α → Option β) (g : α → Option γ)
    (h : ∀ x ∈ l, (f x).isSome = (g x).isSome) :
    (l.filterMap f).length = (l.filterMap g).length := by
  induction l with
  | nil => rfl
  | cons x xs ih =>
      have hx := h x (List.mem_cons_self _ _)
      have hxs := fun y hy => h y (List.mem_cons_of_mem _ hy)
      rw [List.filterMap_cons, List.filterMap_cons]
      cases hf : f x with
      | none =>
          cases hg : g x with
          | none => exact ih hxs
          | some c => rw [hf, hg] at hx; simp at hx
      | some b =>
          cases hg : g x with
          | none => rw [hf, hg] at hx; simp at hx
          | some c => simp [ih hxs]

lemma entry_isSome_iff (tol : ℚ) (parsed : List (String × List (List (Option ℚ))))
    (r : AnalysisRow) (hr : r ∈ analyze_rows tol parsed) :
    ((devEntry? r).isSome ↔ r.measurements ≠ [])
    ∧ ((stdEntry? r).isSome ↔ r.measurements ≠ [])
    ∧ ((rangeEntry? r).isSome ↔ r.measurements ≠ []) := by
  rcases (mem_analyze_rows tol parsed r).mp hr with ⟨bank, lruns, nom, i, _, _, _, rfl⟩
  obtain ⟨_, hdev, hstd, hrange⟩ := mkRow_defined_iff tol bank nom lruns i
  refine ⟨?_, ?_, ?_⟩
  · simpa [devEntry?] using hdev
  · simpa [stdEntry?] using hstd
  · simpa [rangeEntry?] using hrange

lemma entry_map_pair (tol : ℚ) (parsed : List (String × List (List (Option ℚ))))
    (r : AnalysisRow) (hr : r ∈ analyze_rows tol parsed) :
    ((devEntry? r).map (fun e => (e.bank, e.leafID))
        = if r.measurements = [] then none else some (r.bank, r.leafID))
    ∧ ((stdEntry? r).map (fun e => (e.bank, e.leafID))
        = if r.measurements = [] then none else some (r.bank, r.leafID))
    ∧ ((rangeEntry? r).map (fun e => (e.bank, e.leafID))
        = if r.measurements = [] then none else some (r.bank, r.leafID)) := by
  obtain ⟨hdev, hstd, hrange⟩ := entry_isSome_iff tol parsed r hr
  by_cases hm : r.measurements = []
  · have h1 : devEntry? r = none := by
      cases h : devEntry? r with
      | none => rfl
      | some e => rw [h] at hdev; simp [hm] at hdev
    have h2 : stdEntry? r = none := by
      cases h : stdEntry? r with
      | none => rfl
      | some e => rw [h] at hstd; simp [hm] at hstd
    have h3 : rangeEntry? r = none := by
      cases h : rangeEntry? r with
      | none => rfl
      | some e => rw [h] at hrange; simp [hm] at hrange
    simp [h1, h2, h3, hm]
  · have h1 : ∃ d, r.deviation = some d := by
      have hh := hdev.mpr hm
      cases hd : r.deviation with
      | none => unfold devEntry? at hh; rw [hd] at hh; simp at hh
      | some d => exact ⟨d, rfl⟩
    have h2 : ∃ v, r.std_dev_sq = some v := by
      have hh := hstd.mpr hm
      cases hd : r.std_dev_sq with
      | none => unfold stdEntry? at hh; rw [hd] at hh; simp at hh
      | some v => exact ⟨v, rfl⟩
    have h3 : ∃ v, r.posRange = some v := by
      have hh := hrange.mpr hm
      cases hd : r.posRange with
      | none => unfold rangeEntry? at hh; rw [hd] at hh; simp at hh
      | some v => exact ⟨v, rfl⟩
    rcases h1 with ⟨d, hd⟩
    rcases h2 with ⟨v, hv⟩
    rcases h3 with ⟨w, hw⟩
    simp [devEntry?, stdEntry?, rangeEntry?, hd, hv, hw, hm]

/-- C10: a row contributes to the inaccuracy board iff to the imprecision
board iff to the spread board — exactly when it has at least one valid
measurement — so the three leaderboards have equal length and list the
same (bank, leaf ID) pairs up to their orderings. -/
theorem C10_leaderboards_same_rows :
    ∀ (parsed : List (String × List (List (Option ℚ)))) (n : ℕ) (tol : ℚ), n ≠ 0 →
      (∀ r ∈ (analyze_data parsed n tol).rows,
        ((devEntry? r).isSome ↔ r.measurements ≠ [])
        ∧ ((stdEntry? r).isSome ↔ r.measurements ≠ [])
        ∧ ((rangeEntry? r).isSome ↔ r.measurements ≠ []))
      ∧ (analyze_data parsed n tol).ranked_inaccurate.length
          = (analyze_data parsed n tol).ranked_imprecise.length
      ∧ (analyze_data parsed n tol).ranked_imprecise.length
          = (analyze_data parsed n tol).ranked_by_range.length
      ∧ ((analyze_data parsed n tol).ranked_inaccurate.map
            (fun e => (e.bank, e.leafID))).Perm
          ((analyze_data parsed n tol).rows.filterMap
            (fun r => if r.measurements = [] then none else some (r.bank, r.leafID)))
      ∧ ((analyze_data parsed n tol).ranked_imprecise.map
            (fun e => (e.bank, e.leafID))).Perm
          ((analyze_data parsed n tol).rows.filterMap
            (fun r => if r.measurements = [] then none else some (r.bank, r.leafID)))
      ∧ ((analyze_data parsed n tol).ranked_by_range.map
            (fun e => (e.bank, e.leafID))).Perm
          ((analyze_data parsed n tol).rows.filterMap
            (fun r => if r.measurements = [] then none else some (r.bank, r.leafID))) := by
  intro parsed n tol hn
  have hrows := analyze_data_rows parsed n tol hn
  have h1 : (analyze_data parsed n tol).ranked_inaccurate
      = sortDesc ((analyze_rows tol parsed).filterMap devEntry?) := by
    simp [analyze_data, hn]
  have h2 : (analyze_data parsed n tol).ranked_imprecise
      = sortDesc ((analyze_rows tol parsed).filterMap stdEntry?) := by
    simp [analyze_data, hn]
  have h3 : (analyze_data parsed n tol).ranked_by_range
      = sortDesc ((analyze_rows tol parsed).filterMap rangeEntry?) := by
    simp [analyze_data, hn]
  have hisome := fun r hr => entry_isSome_iff tol parsed r hr
  have hsame12 : ∀ r ∈ analyze_rows tol parsed,
      (devEntry? r).isSome = (stdEntry? r).isSome := by
    intro r hr
    obtain ⟨a, b, _⟩ := hisome r hr
    have hab := a.trans b.symm
    cases hda : (devEntry? r).isSome <;> cases hsa : (stdEntry? r).isSome <;>
      simp_all
  have hsame23 : ∀ r ∈ analyze_rows tol parsed,
      (stdEntry? r).isSome = (rangeEntry? r).isSome := by
    intro r hr
    obtain ⟨_, b, c⟩ := hisome r hr
    have hbc := b.trans c.symm
    cases hsa : (stdEntry? r).isSome <;> cases hra : (rangeEntry? r).isSome <;>
      simp_all
  have hperm : ∀ f : AnalysisRow → Option LBEntry,
      (∀ r ∈ analyze_rows tol parsed,
        (f r).map (fun e => (e.bank, e.leafID))
          = if r.measurements = [] then none else some (r.bank, r.leafID)) →
      ((sortDesc ((analyze_rows tol parsed).filterMap f)).map
          (fun e => (e.bank, e.leafID))).Perm
        ((analyze_rows tol parsed).filterMap
          (fun r => if r.measurements = [] then none else some (r.bank, r.leafID))) := by
    intro f hf
    refine ((sortDesc_perm _).map _).trans ?_
    rw [List.map_filterMap]
    rw [List.filterMap_congr hf]
  refine ⟨?_, ?_, ?_, ?_, ?_, ?_⟩
  · rw [hrows]; exact hisome
  · rw [h1, h2,
      (sortDesc_perm ((analyze_rows tol parsed).filterMap devEntry?)).length_eq,
      (sortDesc_perm ((analyze_rows tol parsed).filterMap stdEntry?)).length_eq]
    exact filterMap_length_congr _ _ _ hsame12
  · rw [h2, h3,
      (sortDesc_perm ((analyze_rows tol parsed).filterMap stdEntry?)).length_eq,
      (sortDesc_perm ((analyze_rows tol parsed).filterMap rangeEntry?)).length_eq]
    exact filterMap_length_congr _ _ _ hsame23
  · rw [h1, hrows]
    exact hperm devEntry? (fun r hr => (entry_map_pair tol parsed r hr).1)
  · rw [h2, hrows]
    exact hperm stdEntry? (fun r hr => (entry_map_pair tol parsed r hr).2.1)
  · rw [h3, hrows]
    exact hperm rangeEntry? (fun r hr => (entry_map_pair tol parsed r hr).2.2)

/-- C10 witness: the shared-rows property at a concrete one-bank, one-run
analysis. -/
theorem C10_leaderboards_same_rows_witness :
    ((1 : ℕ) ≠ 0)
    ∧ (analyze_data [("Left MLC Bank +20", [])] 1 1).ranked_inaccurate.length
        = (analyze_data [("Left MLC Bank +20", [])] 1 1).ranked_imprecise.length
    ∧ (analyze_data [("Left MLC Bank +20", [])] 1 1).ranked_imprecise.length
        = (analyze_data [("Left MLC Bank +20", [])] 1 1).ranked_by_range.length :=
  ⟨by decide,
   (C10_leaderboards_same_rows [("Left MLC Bank +20", [])] 1 1 (by decide)).2.1,
   (C10_leaderboards_same_rows [("Left MLC Bank +20", [])] 1 1 (by decide)).2.2.1⟩

/-! ### Claim C2 -/

lemma foldl_max_bounds (l : List ℚ) (a : ℚ) :
    (l.foldl max a = a ∨ l.foldl max a ∈ l)
    ∧ a ≤ l.foldl max a ∧ ∀ y ∈ l, y ≤ l.foldl max a := by
  induction l generalizing a with
  | nil => simp
  | cons x xs ih =>
      rw [List.foldl_cons]
      obtain ⟨h1, h2, h3⟩ := ih (max a x)
      refine ⟨?_, ?_, ?_⟩
      · rcases h1 with h | h
        · rcases max_cases a x with ⟨he, _⟩ | ⟨he, _⟩
          · left; rw [h, he]
          · right; rw [h, he]; exact List.mem_cons_self _ _
        · right; exact List.mem_cons_of_mem _ h
      · exact le_trans (le_max_left a x) h2
      · intro y hy
        rcases List.mem_cons.mp hy with rfl | hy
        · exact le_trans (le_max_right a y) h2
        · exact h3 y hy

lemma foldl_min_bounds (l : List ℚ) (a : ℚ) :
    (l.foldl min a = a ∨ l.foldl min a ∈ l)
    ∧ l.foldl min a ≤ a ∧ ∀ y ∈ l, l.foldl min a ≤ y := by
  induction l generalizing a with
  | nil => simp
  | cons x xs ih =>
      rw [List.foldl_cons]
      obtain ⟨h1, h2, h3⟩ := ih (min a x)
      refine ⟨?_, ?_, ?_⟩
      · rcases h1 with h | h
        · rcases min_cases a x with ⟨he, _⟩ | ⟨he, _⟩
          · left; rw [h, he]
          · right; rw [h, he]; exact List.mem_cons_self _ _
        · right; exact List.mem_cons_of_mem _ h
      · exact le_trans h2 (min_le_left a x)
      · intro y hy
        rcases List.mem_cons.mp hy with rfl | hy
        · exact le_trans h2 (min_le_right a y)
        · exact h3 y hy

lemma listMax_spec (l : List ℚ) (h : l ≠ []) :
    listMax l ∈ l ∧ ∀ y ∈ l, y ≤ listMax l := by
  cases l with
  | nil => exact absurd rfl h
  | cons x xs =>
      obtain ⟨h1, _, h3⟩ := foldl_max_bounds (x :: xs) x
      unfold listMax
      refine ⟨?_, ?_⟩
      · rcases h1 with h1 | h1
        · simp only [List.headD_cons]
          rw [h1]
          exact List.mem_cons_self _ _
        · simpa using h1
      · simpa using h3

lemma listMin_spec (l : List ℚ) (h : l ≠ []) :
    listMin l ∈ l ∧ ∀ y ∈ l, listMin l ≤ y := by
  cases l with
  | nil => exact absurd rfl h
  | cons x xs =>
      obtain ⟨h1, _, h3⟩ := foldl_min_bounds (x :: xs) x
      unfold listMin
      refine ⟨?_, ?_⟩
      · rcases h1 with h1 | h1
        · simp only [List.headD_cons]
          rw [h1]
          exact List.mem_cons_self _ _
        · simpa using h1
      · simpa using h3

lemma mkRow_stat_cases (tol : ℚ) (bank : String) (nom : ℤ)
    (lruns : List (List (Option ℚ))) (i : ℕ) :
    ((mkRow tol bank nom lruns i).measurements = [] →
      (mkRow tol bank nom lruns i).meanPos = none
      ∧ (mkRow tol bank nom lruns i).deviation = none
      ∧ (mkRow tol bank nom lruns i).std_dev_sq = none
      ∧ (mkRow tol bank nom lruns i).posRange = none)
    ∧ (∀ v : ℚ, (mkRow tol bank nom lruns i).measurements = [v] →
        (mkRow tol bank nom lruns i).meanPos = some v
        ∧ (mkRow tol bank nom lruns i).deviation = some (v - (nom : ℚ))
        ∧ (mkRow tol bank nom lruns i).std_dev_sq = some 0
        ∧ (mkRow tol bank nom lruns i).posRange = some 0)
    ∧ (2 ≤ (mkRow tol bank nom lruns i).measurements.length →
        (mkRow tol bank nom lruns i).meanPos
            = some ((mkRow tol bank nom lruns i).measurements.sum
                / ((mkRow tol bank nom lruns i).measurements.length : ℚ))
        ∧ (mkRow tol bank nom lruns i).deviation
            = some ((mkRow tol bank nom lruns i).measurements.sum
                / ((mkRow tol bank nom lruns i).measurements.length : ℚ) - (nom : ℚ))
        ∧ (mkRow tol bank nom lruns i).std_dev_sq
            = some (((mkRow tol bank nom lruns i).measurements.map
                (fun x => (x - (mkRow tol bank nom lruns i).measurements.sum
                  / ((mkRow tol bank nom lruns i).measurements.length : ℚ)) ^ 2)).sum
                / ((mkRow tol bank nom lruns i).measurements.length : ℚ))
        ∧ ∃ a ∈ (mkRow tol bank nom lruns i).measurements,
            ∃ b ∈ (mkRow tol bank nom lruns i).measurements,
              (∀ y ∈ (mkRow tol bank nom lruns i).measurements, b ≤ y ∧ y ≤ a)
              ∧ (mkRow tol bank nom lruns i).posRange = some (a - b)) := by
  unfold mkRow
  dsimp only
  rcases hv : (lruns.getD i []).filterMap id with _ | ⟨v, rest⟩
  · simp
  · rcases rest with _ | ⟨w, rest2⟩
    · refine ⟨by simp, ?_, by simp⟩
      intro u hu
      simp only [List.cons.injEq, and_true] at hu
      subst hu
      refine ⟨?_, ?_, ?_, ?_⟩
      · simp
      · simp
      · simp
      · simp
    · have hne : (v :: w :: rest2 : List ℚ) ≠ [] := by simp
      obtain ⟨hmaxmem, hmaxle⟩ := listMax_spec (v :: w :: rest2) hne
      obtain ⟨hminmem, hminle⟩ := listMin_spec (v :: w :: rest2) hne
      refine ⟨by simp, by simp, ?_⟩
      intro _
      refine ⟨?_, ?_, ?_, ?_⟩
      · simp [Nat.succ_lt_succ]
      · simp [Nat.succ_lt_succ]
      · simp [Nat.succ_lt_succ, sqDevSum]
      · exact ⟨listMax (v :: w :: rest2), hmaxmem, listMin (v :: w :: rest2), hminmem,
          fun y hy => ⟨hminle y hy, hmaxle y hy⟩, by simp [Nat.succ_lt_succ]⟩

/-- C2: for an analyzed (bank, leaf) pair with a positive run count, the
statistics come from exactly the non-missing measurements: none valid
gives undefined mean, deviation, standard deviation and range; one valid
value v gives mean v, deviation v - nominal, zero standard deviation and
zero range; two or more give the arithmetic mean, deviation mean -
nominal, the population variance (sum of squared deviations divided by N,
not N - 1, i.e. the squared population standard deviation), and range max
- min. -/
theorem C2_per_leaf_statistics :
    ∀ (parsed : List (String × List (List (Option ℚ)))) (n : ℕ) (tol : ℚ)
      (bank : String) (lruns : List (List (Option ℚ))) (nom : ℤ) (i : ℕ),
      n ≠ 0 → (bank, lruns) ∈ parsed →
      extract_nominal_from_bank_name bank = some nom → i < NUM_LEAVES →
      ∃ row ∈ (analyze_data parsed n tol).rows,
        row.bank = bank ∧ row.leafIndex = i ∧ row.nominal = nom
        ∧ row.measurements = (lruns.getD i []).filterMap id
        ∧ (row.measurements = [] →
            row.meanPos = none ∧ row.deviation = none
            ∧ row.std_dev_sq = none ∧ row.posRange = none)
        ∧ (∀ v : ℚ, row.measurements = [v] →
            row.meanPos = some v ∧ row.deviation = some (v - (nom : ℚ))
            ∧ row.std_dev_sq = some 0 ∧ row.posRange = some 0)
        ∧ (2 ≤ row.measurements.length →
            row.meanPos = some (row.measurements.sum / (row.measurements.length : ℚ))
            ∧ row.deviation
                = some (row.measurements.sum / (row.measurements.length : ℚ) - (nom : ℚ))
            ∧ row.std_dev_sq
                = some ((row.measurements.map
                    (fun x => (x - row.measurements.sum
                      / (row.measurements.length : ℚ)) ^ 2)).sum
                    / (row.measurements.length : ℚ))
            ∧ ∃ a ∈ row.measurements, ∃ b ∈ row.measurements,
                (∀ y ∈ row.measurements, b ≤ y ∧ y ≤ a)
                ∧ row.posRange = some (a - b)) := by
  intro parsed n tol bank lruns nom i hn hmem hext hi
  obtain ⟨hzero, hone, hmany⟩ := mkRow_stat_cases tol bank nom lruns i
  refine ⟨mkRow tol bank nom lruns i, ?_, rfl, rfl, rfl, rfl, hzero, hone, hmany⟩
  rw [analyze_data_rows parsed n tol hn]
  exact (mem_analyze_rows tol parsed _).mpr ⟨bank, lruns, nom, i, hmem, hext, hi, rfl⟩

/-- C2 witness: a concrete single-measurement leaf of the Right -60 bank. -/
theorem C2_per_leaf_statistics_witness :
    ((1 : ℕ) ≠ 0
      ∧ ("Right MLC Bank -60", [[some (-119/2 : ℚ)]])
          ∈ [("Right MLC Bank -60", [[some (-119/2 : ℚ)]])]
      ∧ extract_nominal_from_bank_name "Right MLC Bank -60" = some (-60)
      ∧ 0 < NUM_LEAVES)
    ∧ ∃ row ∈ (analyze_data [("Right MLC Bank -60", [[some (-119/2 : ℚ)]])] 1 1).rows,
        row.bank = "Right MLC Bank -60" ∧ row.leafIndex = 0 ∧ row.nominal = -60
        ∧ row.measurements = (([[some (-119/2 : ℚ)]].getD 0 []).filterMap id)
        ∧ (row.measurements = [] →
            row.meanPos = none ∧ row.deviation = none
            ∧ row.std_dev_sq = none ∧ row.posRange = none)
        ∧ (∀ v : ℚ, row.measurements = [v] →
            row.meanPos = some v ∧ row.deviation = some (v - ((-60 : ℤ) : ℚ))
            ∧ row.std_dev_sq = some 0 ∧ row.posRange = some 0)
        ∧ (2 ≤ row.measurements.length →
            row.meanPos = some (row.measurements.sum / (row.measurements.length : ℚ))
            ∧ row.deviation
                = some (row.measurements.sum / (row.measurements.length : ℚ)
                    - ((-60 : ℤ) : ℚ))
            ∧ row.std_dev_sq
                = some ((row.measurements.map
                    (fun x => (x - row.measurements.sum
                      / (row.measurements.length : ℚ)) ^ 2)).sum
                    / (row.measurements.length : ℚ))
            ∧ ∃ a ∈ row.measurements, ∃ b ∈ row.measurements,
                (∀ y ∈ row.measurements, b ≤ y ∧ y ≤ a)
                ∧ row.posRange = some (a - b)) :=
  ⟨⟨by decide, List.mem_singleton.mpr rfl, by decide, by decide⟩,
   C2_per_leaf_statistics [("Right MLC Bank -60", [[some (-119/2 : ℚ)]])] 1 1
     "Right MLC Bank -60" [[some (-119/2 : ℚ)]] (-60) 0
     (by decide) (List.mem_singleton.mpr rfl) (by decide) (by decide)⟩

/-! ### Claim C9 -/

/-- A signed-integer token as the spec describes it: an optional `+` or `-`
immediately followed by one or more digits. -/
def SignedIntToken (t : List Char) : Prop :=
  ∃ d, d ≠ [] ∧ (∀ ch ∈ d, ch.isDigit = true) ∧ (t = d ∨ t = '+' :: d ∨ t = '-' :: d)

lemma token_isSome_iff (t : List Char) :
    (signedIntToken? t).isSome = true ↔ SignedIntToken t := by
  cases t with
  | nil =>
      constructor
      · intro h; simp [signedIntToken?] at h
      · rintro ⟨d, hd, _, h | h | h⟩
        · exact absurd h.symm hd
        · cases h
        · cases h
  | cons c d =>
      constructor
      · intro h
        by_cases hp : c = '+'
        · subst hp
          by_cases hcond : (!d.isEmpty && d.all Char.isDigit) = true
          · rw [Bool.and_eq_true] at hcond
            obtain ⟨h1, h2⟩ := hcond
            have hdne : d ≠ [] := by
              intro hdn; subst hdn; simp at h1
            exact ⟨d, hdne, List.all_eq_true.mp h2, Or.inr (Or.inl rfl)⟩
          · simp [signedIntToken?, hcond] at h
        · by_cases hm : c = '-'
          · subst hm
            by_cases hcond : (!d.isEmpty && d.all Char.isDigit) = true
            · rw [Bool.and_eq_true] at hcond
              obtain ⟨h1, h2⟩ := hcond
              have hdne : d ≠ [] := by
                intro hdn; subst hdn; simp at h1
              exact ⟨d, hdne, List.all_eq_true.mp h2, Or.inr (Or.inr rfl)⟩
            · simp [signedIntToken?, hcond] at h
          · by_cases hcond : (c :: d).all Char.isDigit = true
            · exact ⟨c :: d, by simp, List.all_eq_true.mp hcond, Or.inl rfl⟩
            · simp [signedIntToken?, hp, hm, hcond] at h
      · rintro ⟨d2, hd2, hdig, hcase | hcase | hcase⟩
        · have hall : (c :: d).all Char.isDigit = true := by
            rw [hcase]; exact List.all_eq_true.mpr hdig
          have hcd : c.isDigit = true :=
            List.all_eq_true.mp hall c (List.mem_cons_self _ _)
          have hp : ¬ c = '+' := by
            intro he; subst he; exact absurd hcd (by decide)
          have hm : ¬ c = '-' := by
            intro he; subst he; exact absurd hcd (by decide)
          simp [signedIntToken?, hp, hm, hall]
        · obtain ⟨hc, hd⟩ : c = '+' ∧ d = d2 := by
            injection hcase with h1 h2; exact ⟨h1, h2⟩
          subst hc; subst hd
          have h1 : (!d.isEmpty) = true := by
            cases d with
            | nil => exact absurd rfl hd2
            | cons a b => rfl
          have h2 : d.all Char.isDigit = true := List.all_eq_true.mpr hdig
          simp [signedIntToken?, h1, h2]
        · obtain ⟨hc, hd⟩ : c = '-' ∧ d = d2 := by
            injection hcase with h1 h2; exact ⟨h1, h2⟩
          subst hc; subst hd
          have h1 : (!d.isEmpty) = true := by
            cases d with
            | nil => exact absurd rfl hd2
            | cons a b => rfl
          have h2 : d.all Char.isDigit = true := List.all_eq_true.mpr hdig
          simp [signedIntToken?, h1, h2]

lemma token_some_val (t : List Char) (h : (signedIntToken? t).isSome = true) :
    signedIntToken? t = some (tokenVal t) := by
  cases t with
  | nil => simp [signedIntToken?] at h
  | cons c d =>
      by_cases hp : c = '+'
      · subst hp
        by_cases hcond : (!d.isEmpty && d.all Char.isDigit) = true
        · simp [signedIntToken?, tokenVal, hcond]
        · simp [signedIntToken?, hcond] at h
      · by_cases hm : c = '-'
        · subst hm
          by_cases hcond : (!d.isEmpty && d.all Char.isDigit) = true
          · simp [signedIntToken?, tokenVal, hcond]
          · simp [signedIntToken?, hcond] at h
        · by_cases hcond : (c :: d).all Char.isDigit = true
          · simp [signedIntToken?, tokenVal, hp, hm, hcond]
          · simp [signedIntToken?, hp, hm, hcond] at h

lemma suffix_eq_of_length_le {t l : List Char} (h : t <:+ l)
    (hl : l.length ≤ t.length) : t = l := by
  obtain ⟨p, hp⟩ := h
  have hlen : p.length + t.length = l.length := by rw [← hp]; simp
  have hp0 : p.length = 0 := by omega
  rw [List.length_eq_zero] at hp0
  subst hp0
  simpa using hp

lemma suffix_cons_cases {t : List Char} {c : Char} {cs : List Char}
    (h : t <:+ c :: cs) : t = c :: cs ∨ t <:+ cs := by
  obtain ⟨p, hp⟩ := h
  cases p with
  | nil => left; simpa using hp
  | cons a p2 =>
      right
      injection hp with h1 h2
      exact ⟨p2, h2⟩

lemma tails_search_max (cs : List Char) :
    ∀ t, t <:+ cs → SignedIntToken t →
      (∀ u, u <:+ cs → SignedIntToken u → u.length ≤ t.length) →
      (cs.tails.filterMap signedIntToken?).head? = some (tokenVal t) := by
  induction cs with
  | nil =>
      intro t ht htok _
      rw [List.suffix_nil.mp ht] at htok
      have := (token_isSome_iff []).mpr htok
      simp [signedIntToken?] at this
  | cons c cs2 ih =>
      intro t ht htok hmax
      rw [List.tails_cons, List.filterMap_cons]
      cases hsi : signedIntToken? (c :: cs2) with
      | some v =>
          have htokc : SignedIntToken (c :: cs2) :=
            (token_isSome_iff _).mp (by rw [hsi]; rfl)
          have hlen := hmax (c :: cs2) (List.suffix_refl _) htokc
          have hte : t = c :: cs2 := suffix_eq_of_length_le ht hlen
          subst hte
          have hval : some v = some (tokenVal (c :: cs2)) :=
            hsi.symm.trans (token_some_val (c :: cs2) (by rw [hsi]; rfl))
          simp only [hsi, List.head?_cons]
          exact hval
      | none =>
          have htne : t ≠ c :: cs2 := by
            intro he
            have := (token_isSome_iff t).mpr htok
            rw [he, hsi] at this
            simp at this
          have ht2 : t <:+ cs2 := by
            rcases suffix_cons_cases ht with he | h2
            · exact absurd he htne
            · exact h2
          simp only [hsi]
          exact ih t ht2 htok
            (fun u hu hutok => hmax u (hu.trans (List.suffix_cons c cs2)) hutok)

/-- C9: whenever the bank label has a maximal trailing signed-integer
token, the nominal extractor returns that token's sign-preserving integer
value; when no suffix is such a token, it returns 100 exactly when the
label contains both substrings `100` and `Bank 100`, and fails (the
`InvalidBankNameError`, here `none`) otherwise. -/
theorem C9_nominal_extraction :
    ∀ s : String,
      (∀ t, t <:+ s.data → SignedIntToken t →
        (∀ u, u <:+ s.data → SignedIntToken u → u.length ≤ t.length) →
        extract_nominal_from_bank_name s = some (tokenVal t))
      ∧ ((∀ t, t <:+ s.data → ¬ SignedIntToken t) →
          extract_nominal_from_bank_name s =
            if containsSub s "100" && containsSub s "Bank 100" then some 100
            else none) := by
  intro s
  constructor
  · intro t ht htok hmax
    unfold extract_nominal_from_bank_name
    rw [tails_search_max s.data t ht htok hmax]
  · intro hno
    unfold extract_nominal_from_bank_name
    have hnil : s.data.tails.filterMap signedIntToken? = [] := by
      rw [List.filterMap_eq_nil_iff]
      intro u hu
      have hsuf : u <:+ s.data := (List.mem_tails u s.data).mp hu
      cases hx : signedIntToken? u with
      | none => rfl
      | some v =>
          exact absurd ((token_isSome_iff u).mp (by rw [hx]; rfl)) (hno u hsuf)
    rw [hnil]
    rfl

/-- C9 witness: the maximal trailing token of `a1`, and the fallback at
the empty label. -/
theorem C9_nominal_extraction_witness :
    ((['1'] : List Char) <:+ "a1".data ∧ SignedIntToken ['1']
      ∧ (∀ u, u <:+ "a1".data → SignedIntToken u → u.length ≤ (['1'] : List Char).length)
      ∧ extract_nominal_from_bank_name "a1" = some (tokenVal ['1']))
    ∧ ((∀ t, t <:+ "".data → ¬ SignedIntToken t)
      ∧ extract_nominal_from_bank_name ""
          = if containsSub "" "100" && containsSub "" "Bank 100" then some 100
            else none) := by
  have hsuf : (['1'] : List Char) <:+ "a1".data := ⟨['a'], rfl⟩
  have htok : SignedIntToken ['1'] := ⟨['1'], by decide, by decide, Or.inl rfl⟩
  have hmax : ∀ u, u <:+ "a1".data → SignedIntToken u →
      u.length ≤ (['1'] : List Char).length := by
    intro u hu hutok
    have hu2 : u = ['a', '1'] ∨ u <:+ ['1'] := suffix_cons_cases hu
    rcases hu2 with rfl | hu2
    · rcases hutok with ⟨d, hd, hdig, hcase | hcase | hcase⟩
      · have ham : ('a' : Char) ∈ d := by rw [← hcase]; exact List.mem_cons_self _ _
        exact absurd (hdig 'a' ham) (by decide)
      · injection hcase with h1 _
        exact absurd h1 (by decide)
      · injection hcase with h1 _
        exact absurd h1 (by decide)
    · exact hu2.length_le
  have hno : ∀ t, t <:+ "".data → ¬ SignedIntToken t := by
    intro t ht htok2
    rw [List.suffix_nil.mp ht] at htok2
    rcases htok2 with ⟨d, hd, _, h | h | h⟩
    · exact absurd h.symm hd
    · cases h
    · cases h
  exact ⟨⟨hsuf, htok, hmax, (C9_nominal_extraction "a1").1 ['1'] hsuf htok hmax⟩,
    ⟨hno, (C9_nominal_extraction "").2 hno⟩⟩
